import Mathlib

/-!
Shallow embedding of `monitor/monitor.go` from the complainer repository.

Go time values and durations are modelled as integer nanoseconds; the zero
time value is the integer `0`, so `t.IsZero()` becomes `t = 0` and
`time.Since(t)` at current time `now` becomes `now - t`.  The `recent`
map from failure ID to time is modelled as an association list with Go map
read semantics: a read of a missing key yields the zero value `0`.
-/

/-- `timeout = time.Minute` from the source, in nanoseconds. -/
def timeout : Int := 60000000000

/-- `complainer.Failure`: the fields consumed by the monitor. -/
structure Failure where
  ID : String
  Finished : Int
  Labels : List (String × String)
deriving DecidableEq

/-- The `recent` map of the monitor. -/
abbrev Cache := List (String × Int)

/-- Go map read `m.recent[id]`: the stored value, or the zero value `0`
when the key is missing. -/
def lookupTime (c : Cache) (id : String) : Int :=
  match c.find? (fun p => p.1 == id) with
  | some p => p.2
  | none => 0

/-- Key membership of the Go map (distinct from `lookupTime _ _ ≠ 0`:
a key can be present with the zero value). -/
def hasKey (c : Cache) (id : String) : Bool :=
  c.any (fun p => p.1 == id)

/-- Go map write `m.recent[id] = t`. -/
def mapWrite (c : Cache) (id : String) (t : Int) : Cache :=
  (id, t) :: c.filter (fun p => p.1 != id)

/-- The retention condition of `cleanupRecent`: an entry is deleted when
`time.Since(ts) > timeout`, so it is kept exactly when `now - ts ≤ timeout`. -/
def keepEntry (now : Int) (p : String × Int) : Bool :=
  decide (now - p.2 ≤ timeout)

/-- `cleanupRecent` from the source: delete every entry `ts` with
`time.Since(ts) > timeout`. -/
def cleanupRecent (c : Cache) (now : Int) : Cache :=
  c.filter (keepEntry now)

/-- The four return points of `checkFailure` in the source, in order:
the cache-presence rejection, the staleness rejection, the first-run
rejection, and the final `return true`. -/
inductive Outcome where
  | cachedReject
  | staleReject
  | firstReject
  | accept
deriving DecidableEq

/-- `checkFailure` from the source, instrumented with which return point
fired.  The Go function returns `true` exactly on `Outcome.accept`. -/
def checkFailureO (c : Cache) (now : Int) (f : Failure) (first : Bool) :
    Cache × Outcome :=
  if lookupTime c f.ID ≠ 0 then (c, Outcome.cachedReject)
  else
    let c2 := mapWrite c f.ID f.Finished
    if timeout / 2 < now - f.Finished then (c2, Outcome.staleReject)
    else if first then (c2, Outcome.firstReject)
    else (c2, Outcome.accept)

/- ### Basic cache lemmas -/

theorem lookupTime_nil (id : String) : lookupTime [] id = 0 := rfl

theorem lookupTime_cons_pos (p : String × Int) (rest : Cache) (id : String)
    (h : p.1 = id) : lookupTime (p :: rest) id = p.2 := by
  unfold lookupTime
  rw [List.find?_cons_of_pos rest (by simpa using h)]

theorem lookupTime_cons_neg (p : String × Int) (rest : Cache) (id : String)
    (h : ¬p.1 = id) : lookupTime (p :: rest) id = lookupTime rest id := by
  unfold lookupTime
  rw [List.find?_cons_of_neg rest (by simpa using h)]

theorem lookupTime_mapWrite_self (c : Cache) (id : String) (t : Int) :
    lookupTime (mapWrite c id t) id = t := by
  unfold mapWrite
  rw [lookupTime_cons_pos _ _ _ rfl]

theorem find?_filter_ne (c : Cache) (id id' : String) (h : id' ≠ id) :
    (c.filter (fun p => p.1 != id)).find? (fun p => p.1 == id') =
      c.find? (fun p => p.1 == id') := by
  induction c with
  | nil => rfl
  | cons p rest ih =>
    by_cases hk : p.1 = id
    · have h1 : ((fun p : String × Int => p.1 != id) p) = false := by simp [hk]
      have h2 : ¬((fun p : String × Int => p.1 == id') p = true) := by
        simp [hk]
        exact fun he => h he.symm
      rw [List.filter_cons_of_neg (by simp [h1]),
        List.find?_cons_of_neg rest h2, ih]
    · by_cases hm : p.1 = id'
      · rw [List.filter_cons_of_pos (by simp [hk]),
          List.find?_cons_of_pos _ (by simpa using hm),
          List.find?_cons_of_pos rest (by simpa using hm)]
      · rw [List.filter_cons_of_pos (by simp [hk]),
          List.find?_cons_of_neg _ (by simpa using hm),
          List.find?_cons_of_neg rest (by simpa using hm), ih]

theorem lookupTime_mapWrite_ne (c : Cache) (id id' : String) (t : Int)
    (h : id' ≠ id) :
    lookupTime (mapWrite c id t) id' = lookupTime c id' := by
  unfold mapWrite
  rw [lookupTime_cons_neg _ _ _ (fun he => h he.symm)]
  unfold lookupTime
  rw [find?_filter_ne c id id' h]

theorem hasKey_of_lookupTime_ne (c : Cache) (id : String)
    (h : lookupTime c id ≠ 0) : hasKey c id = true := by
  unfold lookupTime at h
  cases hf : c.find? (fun p => p.1 == id) with
  | none => rw [hf] at h; exact absurd rfl h
  | some p =>
    have hp := List.find?_some hf
    have hmem := List.mem_of_find?_eq_some hf
    unfold hasKey
    rw [List.any_eq_true]
    exact ⟨p, hmem, hp⟩

theorem hasKey_mapWrite_self (c : Cache) (id : String) (t : Int) :
    hasKey (mapWrite c id t) id = true := by
  unfold hasKey mapWrite
  rw [List.any_eq_true]
  exact ⟨(id, t), List.mem_cons_self _ _, by simp⟩

theorem hasKey_mapWrite_mono (c : Cache) (id id' : String) (t : Int)
    (h : hasKey c id' = true) : hasKey (mapWrite c id t) id' = true := by
  by_cases he : id' = id
  · subst he; exact hasKey_mapWrite_self c id' t
  · unfold hasKey at h ⊢
    rw [List.any_eq_true] at h ⊢
    obtain ⟨p, hmem, hp⟩ := h
    refine ⟨p, ?_, hp⟩
    unfold mapWrite
    refine List.mem_cons_of_mem _ (List.mem_filter.mpr ⟨hmem, ?_⟩)
    have hp1 : p.1 = id' := by simpa using hp
    simp [hp1, he]

theorem mem_cleanupRecent (c : Cache) (now : Int) (p : String × Int) :
    p ∈ cleanupRecent c now ↔ p ∈ c ∧ now - p.2 ≤ timeout := by
  unfold cleanupRecent
  rw [List.mem_filter]
  unfold keepEntry
  simp

theorem lookupTime_cleanupRecent_keep (c : Cache) (id : String) (now v : Int)
    (hv : lookupTime c id = v) (h0 : v ≠ 0) (hle : now - v ≤ timeout) :
    lookupTime (cleanupRecent c now) id = v := by
  induction c with
  | nil => exact absurd hv.symm h0
  | cons p rest ih =>
    by_cases hm : p.1 = id
    · have hpv : p.2 = v := by
        rw [lookupTime_cons_pos p rest id hm] at hv; exact hv
      have hkeep : keepEntry now p = true := by
        unfold keepEntry
        rw [hpv]; exact decide_eq_true hle
      unfold cleanupRecent
      rw [List.filter_cons_of_pos hkeep, lookupTime_cons_pos p _ id hm]
      exact hpv
    · have hrest : lookupTime rest id = v := by
        rw [lookupTime_cons_neg p rest id hm] at hv; exact hv
      have ih2 := ih hrest
      unfold cleanupRecent at ih2 ⊢
      by_cases hkeep : keepEntry now p = true
      · rw [List.filter_cons_of_pos hkeep, lookupTime_cons_neg p _ id hm]
        exact ih2
      · rw [List.filter_cons_of_neg hkeep]
        exact ih2

/- ### checkFailure lemmas -/

theorem checkFailureO_fst (c : Cache) (now : Int) (f : Failure) (first : Bool) :
    (checkFailureO c now f first).1 =
      if lookupTime c f.ID ≠ 0 then c else mapWrite c f.ID f.Finished := by
  unfold checkFailureO
  split_ifs with h1 h2 h3 <;> rfl

theorem checkFailureO_cached (c : Cache) (now : Int) (f : Failure) (first : Bool)
    (h : lookupTime c f.ID ≠ 0) :
    checkFailureO c now f first = (c, Outcome.cachedReject) := by
  unfold checkFailureO
  rw [if_pos h]

theorem checkFailureO_accept_iff (c : Cache) (now : Int) (f : Failure) (first : Bool) :
    (checkFailureO c now f first).2 = Outcome.accept ↔
      lookupTime c f.ID = 0 ∧ now - f.Finished ≤ timeout / 2 ∧ first = false := by
  have ht : timeout = 60000000000 := rfl
  unfold checkFailureO
  split_ifs with h1 h2 h3
  · simp_all
  · simp_all
    omega
  · simp_all
  · simp_all

theorem checkFailureO_not_accept_of_stale (c : Cache) (now : Int) (f : Failure)
    (first : Bool) (h : timeout / 2 < now - f.Finished) :
    (checkFailureO c now f first).2 ≠ Outcome.accept := by
  intro hacc
  rw [checkFailureO_accept_iff] at hacc
  have ht : timeout = 60000000000 := rfl
  omega

theorem hasKey_checkFailureO_self (c : Cache) (now : Int) (f : Failure)
    (first : Bool) : hasKey (checkFailureO c now f first).1 f.ID = true := by
  rw [checkFailureO_fst]
  by_cases h : lookupTime c f.ID ≠ 0
  · rw [if_pos h]
    exact hasKey_of_lookupTime_ne c f.ID h
  · rw [if_neg h]
    exact hasKey_mapWrite_self c f.ID f.Finished

theorem hasKey_checkFailureO_mono (c : Cache) (now : Int) (f : Failure)
    (first : Bool) (id : String) (h : hasKey c id = true) :
    hasKey (checkFailureO c now f first).1 id = true := by
  rw [checkFailureO_fst]
  by_cases h1 : lookupTime c f.ID ≠ 0
  · rw [if_pos h1]; exact h
  · rw [if_neg h1]; exact hasKey_mapWrite_mono c f.ID id f.Finished h

theorem lookupTime_checkFailureO_preserve (c : Cache) (now : Int) (f : Failure)
    (first : Bool) (id : String) (v : Int) (hv : lookupTime c id = v) (h0 : v ≠ 0) :
    lookupTime (checkFailureO c now f first).1 id = v := by
  rw [checkFailureO_fst]
  by_cases h1 : lookupTime c f.ID ≠ 0
  · rw [if_pos h1]; exact hv
  · rw [if_neg h1]
    by_cases he : f.ID = id
    · rw [not_not] at h1
      rw [he] at h1
      rw [hv] at h1
      exact absurd h1 h0
    · rw [lookupTime_mapWrite_ne c f.ID id f.Finished (fun hh => he hh.symm)]
      exact hv

/- ### The collaborators, the dispatcher and the run loop -/

/-- The external collaborators consumed by the monitor, as opaque oracle
functions: `mesos.Cluster.Failures`, `mesos.Cluster.Logs`,
`uploader.Uploader.Upload`, `label.Labels.Instances` (keyed by monitor name,
failure labels and reporter name) and each named reporter's `Report`
(returning `some msg` on error, `none` on success). -/
structure Env where
  failures : Except String (List Failure)
  logs : Failure → Except String (String × String)
  upload : Failure → String → String → Except String (String × String)
  instances : String → List (String × String) → String → List String
  reporters : List String
  report : String → String → Failure → String → String → Option String

/-- One `Report` invocation made by `processFailure`: the reporter name, the
instance name, the failure ID, the URLs passed, and the error returned by the
reporter (`none` on success); the error is logged and swallowed in the source. -/
structure Call where
  reporter : String
  inst : String
  failID : String
  stdoutURL : String
  stderrURL : String
  err : Option String
deriving DecidableEq

/-- The reporter fan-out loop of `processFailure`: for every configured
reporter, for every instance resolved from the labels, invoke `Report`. -/
def dispatchCalls (env : Env) (name : String) (f : Failure)
    (so se : String) : List Call :=
  env.reporters.flatMap (fun n =>
    (env.instances name f.Labels n).map (fun i =>
      { reporter := n, inst := i, failID := f.ID, stdoutURL := so,
        stderrURL := se, err := env.report n i f so se }))

/-- Result of `processFailure`: the `Report` calls actually made and the
error value returned (`some _` exactly when log-URL resolution or upload
failed, in which case no calls were made). -/
structure DispatchResult where
  calls : List Call
  err : Option String
deriving DecidableEq

/-- `processFailure` from the source: resolve log URLs, upload them, then fan
out to all reporters × instances, swallowing per-call errors. -/
def processFailure (env : Env) (name : String) (f : Failure) : DispatchResult :=
  match env.logs f with
  | Except.error e =>
      { calls := [],
        err := some ("cannot get stdout and stderr urls from mesos: " ++ e) }
  | Except.ok (so, se) =>
      match env.upload f so se with
      | Except.error e =>
          { calls := [],
            err := some ("cannot get stdout and stderr urls from uploader: " ++ e) }
      | Except.ok (so2, se2) =>
          { calls := dispatchCalls env name f so2 se2, err := none }

/-- The `Monitor` struct: its name and the `recent` map, which is `nil`
(`none`) until lazily initialized by the first run. -/
structure Monitor where
  name : String
  recent : Option Cache
deriving DecidableEq

/-- One accepted failure together with the result of its dispatch (whose
error, if any, `Run` logs and swallows). -/
structure Dispatched where
  failure : Failure
  result : DispatchResult
deriving DecidableEq

/-- The observable result of one `Run`: the updated monitor, the returned
error, and the dispatches performed. -/
structure RunResult where
  monitor : Monitor
  err : Option String
  dispatched : List Dispatched
deriving DecidableEq

/-- One iteration of the failure loop in `Run`: check the failure and, when
accepted, dispatch it. -/
def runStep (env : Env) (now : Int) (name : String) (first : Bool)
    (acc : Cache × List Dispatched) (f : Failure) : Cache × List Dispatched :=
  let r := checkFailureO acc.1 now f first
  if r.2 = Outcome.accept then
    (r.1, acc.2 ++ [{ failure := f, result := processFailure env name f }])
  else
    (r.1, acc.2)

/-- The failure loop of `Run` over the whole polled batch. -/
def runEval (env : Env) (now : Int) (name : String) (first : Bool)
    (c0 : Cache) (fs : List Failure) : Cache × List Dispatched :=
  fs.foldl (runStep env now name first) (c0, [])

/-- `Run` from the source: poll the cluster (a poll error aborts the run
before the cache is touched), lazily initialize the cache (setting `first`),
evaluate every failure, dispatch the accepted ones, then evict old entries.
Dispatch errors are logged, never returned. -/
def Run (env : Env) (now : Int) (m : Monitor) : RunResult :=
  match env.failures with
  | Except.error e => { monitor := m, err := some e, dispatched := [] }
  | Except.ok fs =>
      let first := m.recent.isNone
      let c0 := m.recent.getD []
      let r := runEval env now m.name first c0 fs
      { monitor := { name := m.name, recent := some (cleanupRecent r.1 now) },
        err := none, dispatched := r.2 }

/- ### Evaluation traces across the process lifetime -/

/-- One cache-affecting step of the process: an evaluation of a polled
failure by `checkFailure` at a given current time, or an eviction pass by
`cleanupRecent`.  A run contributes one `check` event per polled failure
followed by one `purge` event; a process lifetime is a concatenation of
runs, so event times are non-decreasing. -/
inductive Event where
  | check (now : Int) (f : Failure) (first : Bool)
  | purge (now : Int)
deriving DecidableEq

/-- The current time at which an event happens. -/
def Event.time : Event → Int
  | Event.check now _ _ => now
  | Event.purge now => now

/-- The cache transition performed by one event. -/
def stepCache (c : Cache) : Event → Cache
  | Event.check now f first => (checkFailureO c now f first).1
  | Event.purge now => cleanupRecent c now

/-- Whether an event is an evaluation of the given failure ID that the
monitor accepts for dispatch. -/
def acceptsId (c : Cache) (id : String) : Event → Bool
  | Event.check now f first =>
      f.ID == id && decide ((checkFailureO c now f first).2 = Outcome.accept)
  | Event.purge _ => false

/-- How many times the given ID is accepted for dispatch along a trace of
events starting from cache `c`. -/
def acceptCount (c : Cache) (id : String) : List Event → Nat
  | [] => 0
  | e :: es =>
      (if acceptsId c id e then 1 else 0) + acceptCount (stepCache c e) id es

theorem acceptCount_cons (c : Cache) (id : String) (e : Event) (es : List Event) :
    acceptCount c id (e :: es) =
      (if acceptsId c id e then 1 else 0) + acceptCount (stepCache c e) id es := rfl

theorem acceptsId_check (c : Cache) (id : String) (now : Int) (f : Failure)
    (fi : Bool) :
    acceptsId c id (Event.check now f fi) =
      (f.ID == id && decide ((checkFailureO c now f fi).2 = Outcome.accept)) := rfl

theorem acceptsId_purge (c : Cache) (id : String) (now : Int) :
    acceptsId c id (Event.purge now) = false := rfl

/-- After an ID has been accepted, the cache invariant "the entry holds the
failure's non-zero `Finished` time, or so much time has passed that the
staleness check always fires" keeps every later evaluation of that ID from
being accepted. -/
theorem acceptCount_eq_zero (id : String) (T : Int) :
    ∀ (es : List Event) (c : Cache) (tmin : Int),
      es.Pairwise (fun a b => a.time ≤ b.time) →
      (∀ e ∈ es, tmin ≤ e.time) →
      (∀ e ∈ es, timeout / 2 < e.time) →
      (∀ now f fi, Event.check now f fi ∈ es → f.ID = id → f.Finished = T) →
      ((lookupTime c id = T ∧ T ≠ 0) ∨ timeout < tmin - T) →
      acceptCount c id es = 0 := by
  intro es
  induction es with
  | nil => intro c tmin _ _ _ _ _; rfl
  | cons e es ih =>
    intro c tmin hpw htmin hreal hfix hinv
    have hpw2 := (List.pairwise_cons.mp hpw).2
    have hhd := (List.pairwise_cons.mp hpw).1
    have htmin_e : tmin ≤ e.time := htmin e (List.mem_cons_self e es)
    have hreal_e : timeout / 2 < e.time := hreal e (List.mem_cons_self e es)
    have ht : timeout = 60000000000 := rfl
    have hreal2 : ∀ x ∈ es, timeout / 2 < x.time :=
      fun x hx => hreal x (List.mem_cons_of_mem e hx)
    have hfix2 : ∀ now f fi, Event.check now f fi ∈ es → f.ID = id → f.Finished = T :=
      fun now f fi hx => hfix now f fi (List.mem_cons_of_mem e hx)
    rw [acceptCount_cons]
    cases e with
    | purge now =>
      have hfalse : acceptsId c id (Event.purge now) = false := rfl
      rw [hfalse]
      simp only [Bool.false_eq_true, if_false, Nat.zero_add]
      have hnow : tmin ≤ now := htmin_e
      rcases hinv with ⟨hL, hT0⟩ | hR
      · by_cases hkeep : now - T ≤ timeout
        · exact ih (stepCache c (Event.purge now)) now hpw2 hhd hreal2 hfix2
            (Or.inl ⟨lookupTime_cleanupRecent_keep c id now T hL hT0 hkeep, hT0⟩)
        · exact ih (stepCache c (Event.purge now)) now hpw2 hhd hreal2 hfix2
            (Or.inr (by omega))
      · exact ih (stepCache c (Event.purge now)) now hpw2 hhd hreal2 hfix2
          (Or.inr (by omega))
    | check now f fi =>
      have hnow : tmin ≤ now := htmin_e
      by_cases hid : f.ID = id
      · have hT : f.Finished = T := hfix now f fi (List.mem_cons_self _ _) hid
        rcases hinv with ⟨hL, hT0⟩ | hR
        · have hlk : lookupTime c f.ID ≠ 0 := by rw [hid, hL]; exact hT0
          have hcf := checkFailureO_cached c now f fi hlk
          have hfalse : acceptsId c id (Event.check now f fi) = false := by
            rw [acceptsId_check, hcf]
            simp
          rw [hfalse]
          simp only [Bool.false_eq_true, if_false, Nat.zero_add]
          have hstep : stepCache c (Event.check now f fi) = c := by
            show (checkFailureO c now f fi).1 = c
            rw [hcf]
          rw [hstep]
          exact ih c now hpw2 hhd hreal2 hfix2 (Or.inl ⟨hL, hT0⟩)
        · have hstale : timeout / 2 < now - f.Finished := by rw [hT]; omega
          have hna := checkFailureO_not_accept_of_stale c now f fi hstale
          have hfalse : acceptsId c id (Event.check now f fi) = false := by
            rw [acceptsId_check]
            simp [hna]
          rw [hfalse]
          simp only [Bool.false_eq_true, if_false, Nat.zero_add]
          exact ih (stepCache c (Event.check now f fi)) now hpw2 hhd hreal2 hfix2
            (Or.inr (by omega))
      · have hfalse : acceptsId c id (Event.check now f fi) = false := by
          rw [acceptsId_check]
          simp [hid]
        rw [hfalse]
        simp only [Bool.false_eq_true, if_false, Nat.zero_add]
        rcases hinv with ⟨hL, hT0⟩ | hR
        · have hpres : lookupTime (stepCache c (Event.check now f fi)) id = T :=
            lookupTime_checkFailureO_preserve c now f fi id T hL hT0
          exact ih (stepCache c (Event.check now f fi)) now hpw2 hhd hreal2 hfix2
            (Or.inl ⟨hpres, hT0⟩)
        · exact ih (stepCache c (Event.check now f fi)) now hpw2 hhd hreal2 hfix2
            (Or.inr (by omega))

/-- C1: across a process lifetime (any trace of evaluations and evictions
with non-decreasing, realistic current times, in which every poll of the
given ID carries the failure's fixed `Finished` timestamp), the ID is
accepted for dispatch at most once — duplicates within one run, re-polls in
later runs, and re-polls after the cache entry has been evicted are all
rejected. -/
theorem spec_c1_id_accepted_at_most_once (c : Cache) (id : String) (T : Int)
    (es : List Event)
    (hpw : es.Pairwise (fun a b => Event.time a ≤ Event.time b))
    (hreal : ∀ e ∈ es, timeout / 2 < Event.time e)
    (hfix : ∀ now f fi, Event.check now f fi ∈ es → f.ID = id → f.Finished = T) :
    acceptCount c id es ≤ 1 := by
  induction es generalizing c with
  | nil => exact Nat.zero_le 1
  | cons e es ih =>
    have hpw2 := (List.pairwise_cons.mp hpw).2
    have hhd := (List.pairwise_cons.mp hpw).1
    have hreal2 : ∀ x ∈ es, timeout / 2 < Event.time x :=
      fun x hx => hreal x (List.mem_cons_of_mem e hx)
    have hfix2 : ∀ now f fi, Event.check now f fi ∈ es → f.ID = id → f.Finished = T :=
      fun now f fi hx => hfix now f fi (List.mem_cons_of_mem e hx)
    rw [acceptCount_cons]
    by_cases hacc : acceptsId c id e = true
    · cases e with
      | purge now => exact absurd hacc (by rw [acceptsId_purge]; simp)
      | check now f fi =>
        have hparts : f.ID = id ∧ (checkFailureO c now f fi).2 = Outcome.accept := by
          rw [acceptsId_check] at hacc
          simpa using hacc
        obtain ⟨hid, haccept⟩ := hparts
        rw [checkFailureO_accept_iff] at haccept
        obtain ⟨hlk, hfresh, hfi⟩ := haccept
        have hT : f.Finished = T := hfix now f fi (List.mem_cons_self _ _) hid
        have hreal_e : timeout / 2 < now := hreal _ (List.mem_cons_self _ _)
        have ht : timeout = 60000000000 := rfl
        have hT0 : T ≠ 0 := by omega
        have hstep : stepCache c (Event.check now f fi) = mapWrite c f.ID f.Finished := by
          show (checkFailureO c now f fi).1 = _
          rw [checkFailureO_fst, if_neg (fun hne => hne hlk)]
        have hlkT : lookupTime (stepCache c (Event.check now f fi)) id = T := by
          rw [hstep, ← hid, lookupTime_mapWrite_self]
          exact hT
        have hzero := acceptCount_eq_zero id T es (stepCache c (Event.check now f fi))
          now hpw2 hhd hreal2 hfix2 (Or.inl ⟨hlkT, hT0⟩)
        rw [if_pos hacc, hzero]
    · rw [if_neg hacc]
      simp only [Nat.zero_add]
      exact ih (stepCache c e) hpw2 hreal2 hfix2

/-- Witness for C1: a concrete lifetime trace in which the ID "a" is polled
in two consecutive runs, evicted, and polled again after eviction; it is
accepted exactly once. -/
theorem spec_c1_witness :
    acceptCount [] "a"
      [Event.check 100000000000 ⟨"a", 90000000000, []⟩ false,
       Event.check 110000000000 ⟨"a", 90000000000, []⟩ false,
       Event.purge 200000000000,
       Event.check 210000000000 ⟨"a", 90000000000, []⟩ false] ≤ 1 :=
  spec_c1_id_accepted_at_most_once [] "a" 90000000000
    [Event.check 100000000000 ⟨"a", 90000000000, []⟩ false,
     Event.check 110000000000 ⟨"a", 90000000000, []⟩ false,
     Event.purge 200000000000,
     Event.check 210000000000 ⟨"a", 90000000000, []⟩ false]
    (by decide) (by decide)
    (by
      intro now f fi h hid
      simp only [List.mem_cons, List.not_mem_nil, or_false] at h
      rcases h with h | h | h | h
      · injection h with h1 h2 h3; subst h2; rfl
      · injection h with h1 h2 h3; subst h2; rfl
      · exact Event.noConfusion h
      · injection h with h1 h2 h3; subst h2; rfl)

/- ### Lemmas about the run loop -/

theorem runStep_fst (env : Env) (now : Int) (name : String) (first : Bool)
    (acc : Cache × List Dispatched) (f : Failure) :
    (runStep env now name first acc f).1 = (checkFailureO acc.1 now f first).1 := by
  dsimp only [runStep]
  split <;> rfl

/-- Every element of the dispatched list after the loop either was already
there or was accepted by `checkFailure` at some intermediate cache and
dispatched via `processFailure`. -/
theorem mem_dispatched_foldl (env : Env) (now : Int) (name : String)
    (first : Bool) :
    ∀ (fs : List Failure) (acc : Cache × List Dispatched) (d : Dispatched),
      d ∈ (fs.foldl (runStep env now name first) acc).2 →
      d ∈ acc.2 ∨
        ((∃ c, (checkFailureO c now d.failure first).2 = Outcome.accept) ∧
          d.result = processFailure env name d.failure ∧ d.failure ∈ fs) := by
  intro fs
  induction fs with
  | nil => intro acc d hd; exact Or.inl hd
  | cons f fs ih =>
    intro acc d hd
    rw [List.foldl_cons] at hd
    rcases ih (runStep env now name first acc f) d hd with hmem | hnew
    · dsimp only [runStep] at hmem
      split at hmem
      · rename_i hacc
        rcases List.mem_append.mp hmem with hold | hone
        · exact Or.inl hold
        · rcases List.mem_singleton.mp hone with rfl
          exact Or.inr ⟨⟨acc.1, hacc⟩, rfl, List.mem_cons_self f fs⟩
      · exact Or.inl hmem
    · exact Or.inr ⟨hnew.1, hnew.2.1, List.mem_cons_of_mem f hnew.2.2⟩

theorem hasKey_foldl_mono (env : Env) (now : Int) (name : String) (first : Bool)
    (id : String) :
    ∀ (fs : List Failure) (acc : Cache × List Dispatched),
      hasKey acc.1 id = true →
      hasKey ((fs.foldl (runStep env now name first) acc)).1 id = true := by
  intro fs
  induction fs with
  | nil => intro acc h; exact h
  | cons f fs ih =>
    intro acc h
    rw [List.foldl_cons]
    refine ih _ ?_
    rw [runStep_fst]
    exact hasKey_checkFailureO_mono acc.1 now f first id h

theorem hasKey_foldl_of_mem (env : Env) (now : Int) (name : String) (first : Bool) :
    ∀ (fs : List Failure) (acc : Cache × List Dispatched) (f : Failure),
      f ∈ fs →
      hasKey ((fs.foldl (runStep env now name first) acc)).1 f.ID = true := by
  intro fs
  induction fs with
  | nil => intro acc f hf; exact absurd hf (List.not_mem_nil f)
  | cons g fs ih =>
    intro acc f hf
    rw [List.foldl_cons]
    rcases List.mem_cons.mp hf with rfl | hmem
    · refine hasKey_foldl_mono env now name first f.ID fs _ ?_
      rw [runStep_fst]
      exact hasKey_checkFailureO_self acc.1 now f first
    · exact ih _ f hmem

theorem no_accept_of_first (c : Cache) (now : Int) (f : Failure) :
    (checkFailureO c now f true).2 ≠ Outcome.accept := by
  intro h
  rw [checkFailureO_accept_iff] at h
  exact absurd h.2.2 (by decide)

/-- On the first run, the dispatched list never grows. -/
theorem dispatched_foldl_first (env : Env) (now : Int) (name : String) :
    ∀ (fs : List Failure) (acc : Cache × List Dispatched),
      (fs.foldl (runStep env now name true) acc).2 = acc.2 := by
  intro fs
  induction fs with
  | nil => intro acc; rfl
  | cons f fs ih =>
    intro acc
    rw [List.foldl_cons, ih]
    dsimp only [runStep]
    rw [if_neg (no_accept_of_first acc.1 now f)]

/-- The invariant carried through the failure loop: every dispatched failure
was fresh when accepted, and the cache still maps its ID to its `Finished`
time. -/
theorem runStep_dispatch_inv (env : Env) (now : Int) (name : String)
    (first : Bool) (hnow : timeout / 2 < now) (acc : Cache × List Dispatched)
    (f : Failure)
    (hinv : ∀ d ∈ acc.2, lookupTime acc.1 d.failure.ID = d.failure.Finished ∧
        now - d.failure.Finished ≤ timeout / 2) :
    ∀ d ∈ (runStep env now name first acc f).2,
      lookupTime (runStep env now name first acc f).1 d.failure.ID =
          d.failure.Finished ∧
        now - d.failure.Finished ≤ timeout / 2 := by
  intro d hd
  have ht : timeout = 60000000000 := rfl
  rw [runStep_fst]
  dsimp only [runStep] at hd
  by_cases hacc : (checkFailureO acc.1 now f first).2 = Outcome.accept
  · rw [if_pos hacc] at hd
    rcases List.mem_append.mp hd with hold | hone
    · obtain ⟨hL, hS⟩ := hinv d hold
      have h0 : d.failure.Finished ≠ 0 := by omega
      exact ⟨lookupTime_checkFailureO_preserve acc.1 now f first _ _ hL h0, hS⟩
    · rcases List.mem_singleton.mp hone with rfl
      obtain ⟨hlk, hfresh, _⟩ := (checkFailureO_accept_iff acc.1 now f first).mp hacc
      constructor
      · rw [checkFailureO_fst, if_neg (fun hne => hne hlk)]
        exact lookupTime_mapWrite_self acc.1 f.ID f.Finished
      · exact hfresh
  · rw [if_neg hacc] at hd
    obtain ⟨hL, hS⟩ := hinv d hd
    have h0 : d.failure.Finished ≠ 0 := by omega
    exact ⟨lookupTime_checkFailureO_preserve acc.1 now f first _ _ hL h0, hS⟩

theorem foldl_dispatch_inv (env : Env) (now : Int) (name : String) (first : Bool)
    (hnow : timeout / 2 < now) :
    ∀ (fs : List Failure) (acc : Cache × List Dispatched),
      (∀ d ∈ acc.2, lookupTime acc.1 d.failure.ID = d.failure.Finished ∧
          now - d.failure.Finished ≤ timeout / 2) →
      ∀ d ∈ (fs.foldl (runStep env now name first) acc).2,
        lookupTime (fs.foldl (runStep env now name first) acc).1 d.failure.ID =
            d.failure.Finished ∧
          now - d.failure.Finished ≤ timeout / 2 := by
  intro fs
  induction fs with
  | nil => intro acc hinv; exact hinv
  | cons f fs ih =>
    intro acc hinv
    rw [List.foldl_cons]
    exact ih _ (runStep_dispatch_inv env now name first hnow acc f hinv)

/-- Which failures get through the cache filter, and the resulting cache,
depend only on the polled failure list, never on the outcome of log
resolution, upload or any reporter call. -/
theorem foldl_runStep_indep (env env' : Env) (now : Int) (name : String)
    (first : Bool) :
    ∀ (fs : List Failure) (c : Cache) (l l' : List Dispatched),
      l.map (fun d => d.failure) = l'.map (fun d => d.failure) →
      (fs.foldl (runStep env now name first) (c, l)).1 =
          (fs.foldl (runStep env' now name first) (c, l')).1 ∧
        (fs.foldl (runStep env now name first) (c, l)).2.map (fun d => d.failure) =
          (fs.foldl (runStep env' now name first) (c, l')).2.map (fun d => d.failure) := by
  intro fs
  induction fs with
  | nil => intro c l l' h; exact ⟨rfl, h⟩
  | cons f fs ih =>
    intro c l l' h
    rw [List.foldl_cons, List.foldl_cons]
    dsimp only [runStep]
    by_cases hacc : (checkFailureO c now f first).2 = Outcome.accept
    · rw [if_pos hacc, if_pos hacc]
      exact ih _ _ _ (by rw [List.map_append, List.map_append, h]; rfl)
    · rw [if_neg hacc, if_neg hacc]
      exact ih _ _ _ h

/-- The monitor state reached by a run, the run's error and the failures it
dispatches depend on the environment only through the polled failure list. -/
theorem run_indep_of_failures_eq (env env' : Env) (now : Int) (m : Monitor)
    (h : env'.failures = env.failures) :
    (Run env' now m).monitor = (Run env now m).monitor ∧
      (Run env' now m).err = (Run env now m).err ∧
      (Run env' now m).dispatched.map (fun d => d.failure) =
        (Run env now m).dispatched.map (fun d => d.failure) := by
  cases hf : env.failures with
  | error e =>
    unfold Run
    rw [h, hf]
    exact ⟨rfl, rfl, rfl⟩
  | ok fs =>
    unfold Run
    rw [h, hf]
    dsimp only [runEval]
    have hind := foldl_runStep_indep env' env now m.name m.recent.isNone fs
      (m.recent.getD []) [] [] rfl
    refine ⟨?_, rfl, hind.2⟩
    rw [hind.1]

/- ### Concrete environments for witnesses and counterexamples -/

/-- One failure whose `Finished` time is the zero value, with trivially
succeeding collaborators. -/
def staleEnv : Env :=
  { failures := Except.ok [{ ID := "x", Finished := 0, Labels := [] }],
    logs := fun _ => Except.ok ("so", "se"),
    upload := fun _ a b => Except.ok (a, b),
    instances := fun _ _ _ => ["i"],
    reporters := ["rep"],
    report := fun _ _ _ _ _ => none }

/-- Two fresh failures, used to exercise a first run. -/
def firstRunEnv : Env :=
  { failures := Except.ok
      [{ ID := "p", Finished := 100000000000, Labels := [] },
       { ID := "q", Finished := 100000000000, Labels := [] }],
    logs := fun _ => Except.ok ("so", "se"),
    upload := fun _ a b => Except.ok (a, b),
    instances := fun _ _ _ => ["i"],
    reporters := ["rep"],
    report := fun _ _ _ _ _ => none }

/-- C2, counterexample to the claim as stated: on the very first run a
polled failure whose `Finished` time is already more than `timeout` in the
past has its ID recorded during the run but evicted again by the end-of-run
cleanup, so its ID is NOT present in the cache at the end of that run. -/
theorem spec_c2_counterexample :
    staleEnv.failures = Except.ok [{ ID := "x", Finished := 0, Labels := [] }] ∧
    (Run staleEnv 120000000000 { name := "default", recent := none }).dispatched = [] ∧
    hasKey (((Run staleEnv 120000000000
        { name := "default", recent := none }).monitor.recent).getD []) "x" = false :=
  ⟨rfl, rfl, rfl⟩

/-- C2 (amended): on the very first run no failure is accepted for
dispatch, and every polled failure's ID is present in the cache at the end
of the run's evaluation loop, before the end-of-run eviction (which may
immediately remove entries whose recorded `Finished` time is older than
`timeout`). -/
theorem spec_c2_first_run_suppression (env : Env) (now : Int) (m : Monitor)
    (fs : List Failure) (hp : env.failures = Except.ok fs)
    (hfirst : m.recent = none) :
    (Run env now m).dispatched = [] ∧
    ∀ f ∈ fs, hasKey (runEval env now m.name true [] fs).1 f.ID = true := by
  constructor
  · unfold Run
    rw [hp, hfirst]
    dsimp only [runEval]
    exact dispatched_foldl_first env now m.name fs ([], [])
  · intro f hf
    exact hasKey_foldl_of_mem env now m.name true fs ([], []) f hf

/-- Witness for C2: a first run over two fresh failures dispatches nothing
and leaves both IDs in the evaluation-loop cache. -/
theorem spec_c2_witness :
    (Run firstRunEnv 100000000000 { name := "default", recent := none }).dispatched = [] ∧
    ∀ f ∈ ([{ ID := "p", Finished := 100000000000, Labels := [] },
            { ID := "q", Finished := 100000000000, Labels := [] }] : List Failure),
      hasKey (runEval firstRunEnv 100000000000 "default" true []
        [{ ID := "p", Finished := 100000000000, Labels := [] },
         { ID := "q", Finished := 100000000000, Labels := [] }]).1 f.ID = true :=
  spec_c2_first_run_suppression firstRunEnv 100000000000
    { name := "default", recent := none }
    [{ ID := "p", Finished := 100000000000, Labels := [] },
     { ID := "q", Finished := 100000000000, Labels := [] }] rfl rfl

/-- C3: a failure whose `Finished` time is more than `timeout / 2` before
the evaluation time is never dispatched by a run, regardless of the
first-run flag, and its evaluation leaves its ID recorded in the cache. -/
theorem spec_c3_stale_rejected_recorded :
    (∀ (env : Env) (now : Int) (m : Monitor) (d : Dispatched),
        d ∈ (Run env now m).dispatched →
        now - d.failure.Finished ≤ timeout / 2) ∧
    (∀ (c : Cache) (now : Int) (f : Failure) (first : Bool),
        timeout / 2 < now - f.Finished →
          (checkFailureO c now f first).2 ≠ Outcome.accept ∧
          hasKey (checkFailureO c now f first).1 f.ID = true) := by
  constructor
  · intro env now m d hd
    unfold Run at hd
    cases hf : env.failures with
    | error e =>
      rw [hf] at hd
      exact absurd hd (List.not_mem_nil d)
    | ok fs =>
      rw [hf] at hd
      dsimp only [runEval] at hd
      rcases mem_dispatched_foldl env now m.name m.recent.isNone fs
          (m.recent.getD [], []) d hd with hnil | hacc
      · exact absurd hnil (List.not_mem_nil d)
      · obtain ⟨⟨c, hc⟩, -, -⟩ := hacc
        exact ((checkFailureO_accept_iff c now d.failure m.recent.isNone).mp hc).2.1
  · intro c now f first hstale
    exact ⟨checkFailureO_not_accept_of_stale c now f first hstale,
      hasKey_checkFailureO_self c now f first⟩

/-- Witness for C3: a failure 120 seconds old is rejected but recorded. -/
theorem spec_c3_witness :
    (checkFailureO [] 120000000000
        { ID := "x", Finished := 0, Labels := [] } false).2 ≠ Outcome.accept ∧
    hasKey (checkFailureO [] 120000000000
        { ID := "x", Finished := 0, Labels := [] } false).1 "x" = true :=
  spec_c3_stale_rejected_recorded.2 [] 120000000000
    { ID := "x", Finished := 0, Labels := [] } false (by decide)

/-- C4, counterexample to the claim as stated: a failure whose `Finished`
time is the zero value is evaluated once (its ID ends up in the cache), yet
a second evaluation of the same ID is not stopped by the cache-presence
check — the zero-valued entry is indistinguishable from absence, so the ID
is re-evaluated while its entry is still in the cache. -/
theorem spec_c4_counterexample :
    hasKey (checkFailureO [] 120000000000
        { ID := "a", Finished := 0, Labels := [] } false).1 "a" = true ∧
    (checkFailureO
        (checkFailureO [] 120000000000
          { ID := "a", Finished := 0, Labels := [] } false).1
        120000000000 { ID := "a", Finished := 0, Labels := [] } false).2 ≠
      Outcome.cachedReject :=
  ⟨rfl, by decide⟩

/-- C4 (amended): every evaluation, accepting or rejecting, leaves the ID
present in the cache; and for a failure whose `Finished` time is non-zero,
as long as its entry remains in the cache every later evaluation of the ID
is stopped by the cache-presence check without modifying the cache.  (A
zero-`Finished` failure is instead re-evaluated on every sighting.) -/
theorem spec_c4_record_once :
    (∀ (c : Cache) (now : Int) (f : Failure) (first : Bool),
        hasKey (checkFailureO c now f first).1 f.ID = true) ∧
    (∀ (c : Cache) (now : Int) (f : Failure) (first : Bool),
        f.Finished ≠ 0 → lookupTime c f.ID = f.Finished →
        checkFailureO c now f first = (c, Outcome.cachedReject)) := by
  constructor
  · intro c now f first
    exact hasKey_checkFailureO_self c now f first
  · intro c now f first h0 hL
    exact checkFailureO_cached c now f first (by rw [hL]; exact h0)

/-- Witness for C4 (amended): a cached non-zero entry makes a duplicate
evaluation a pure cache rejection. -/
theorem spec_c4_witness :
    checkFailureO [("b", 90000000000)] 100000000000
        { ID := "b", Finished := 90000000000, Labels := [] } false =
      ([("b", 90000000000)], Outcome.cachedReject) :=
  spec_c4_record_once.2 [("b", 90000000000)] 100000000000
    { ID := "b", Finished := 90000000000, Labels := [] } false
    (by decide) (by decide)

/-- C5, counterexample to the claim as stated: an entry recorded at time 5
with timestamp 5 is still present at an eviction check performed at exactly
time `5 + timeout` (the code deletes only on a strict comparison), although
the claim asserts absence at every check at time at least `T + timeout`. -/
theorem spec_c5_counterexample :
    hasKey (cleanupRecent
        ((checkFailureO [] 5 { ID := "a", Finished := 5, Labels := [] } false).1)
        (5 + timeout)) "a" = true :=
  rfl

/-- C5 (amended): eviction keeps exactly the entries whose recorded
timestamp `T` satisfies `now ≤ T + timeout`: an entry is absent from the
cache at any eviction check performed at time strictly greater than
`T + timeout`, and survives any check at time at most `T + timeout`. -/
theorem spec_c5_eviction_window :
    ∀ (c : Cache) (now : Int) (e : String × Int),
      e ∈ cleanupRecent c now ↔ e ∈ c ∧ now ≤ e.2 + timeout := by
  intro c now e
  rw [mem_cleanupRecent]
  constructor
  · rintro ⟨h1, h2⟩
    exact ⟨h1, by omega⟩
  · rintro ⟨h1, h2⟩
    exact ⟨h1, by omega⟩

/-- An environment whose cluster poll fails. -/
def pollErrEnv : Env :=
  { failures := Except.error "mesos poll failed",
    logs := fun _ => Except.ok ("so", "se"),
    upload := fun _ a b => Except.ok (a, b),
    instances := fun _ _ _ => [],
    reporters := [],
    report := fun _ _ _ _ _ => none }

/-- C6: when the cluster poll fails, the run returns that error, the
monitor (including its possibly still-uninitialized cache) is unchanged,
and nothing is dispatched or evicted. -/
theorem spec_c6_poll_error_aborts (env : Env) (now : Int) (m : Monitor)
    (e : String) (hp : env.failures = Except.error e) :
    (Run env now m).monitor = m ∧ (Run env now m).err = some e ∧
      (Run env now m).dispatched = [] := by
  unfold Run
  rw [hp]
  exact ⟨rfl, rfl, rfl⟩

/-- Witness for C6: the concrete failing poll leaves the uninitialized
monitor untouched. -/
theorem spec_c6_witness :
    (Run pollErrEnv 0 { name := "default", recent := none }).monitor =
        { name := "default", recent := none } ∧
      (Run pollErrEnv 0 { name := "default", recent := none }).err =
        some "mesos poll failed" ∧
      (Run pollErrEnv 0 { name := "default", recent := none }).dispatched = [] :=
  spec_c6_poll_error_aborts pollErrEnv 0 { name := "default", recent := none }
    "mesos poll failed" rfl

/-- C7: when log resolution and upload succeed, dispatch makes every
(reporter, instance) call in full whatever errors individual reporters
return and itself returns no error; a run whose poll succeeded returns no
error and still evicts every expired entry; and changing the reporters'
results changes neither the monitor state nor which failures are
dispatched. -/
theorem spec_c7_reporter_error_isolated :
    (∀ (env : Env) (name : String) (f : Failure) (so se so2 se2 : String),
        env.logs f = Except.ok (so, se) →
        env.upload f so se = Except.ok (so2, se2) →
        (processFailure env name f).err = none ∧
        (processFailure env name f).calls.map (fun cl => (cl.reporter, cl.inst)) =
          env.reporters.flatMap (fun n =>
            (env.instances name f.Labels n).map (fun i => (n, i)))) ∧
    (∀ (env : Env) (now : Int) (m : Monitor) (fs : List Failure),
        env.failures = Except.ok fs →
        (Run env now m).err = none ∧
        ∀ p ∈ ((Run env now m).monitor.recent).getD [],
          now - p.2 ≤ timeout) ∧
    (∀ (env : Env)
        (rep : String → String → Failure → String → String → Option String)
        (now : Int) (m : Monitor),
        (Run { env with report := rep } now m).monitor = (Run env now m).monitor ∧
        (Run { env with report := rep } now m).dispatched.map (fun d => d.failure) =
          (Run env now m).dispatched.map (fun d => d.failure)) := by
  refine ⟨?_, ?_, ?_⟩
  · intro env name f so se so2 se2 hlogs hup
    unfold processFailure
    rw [hlogs]
    dsimp only
    rw [hup]
    dsimp only
    refine ⟨rfl, ?_⟩
    unfold dispatchCalls
    rw [List.map_flatMap]
    refine List.flatMap_congr ?_
    intro n hn
    rw [List.map_map]
    rfl
  · intro env now m fs hp
    unfold Run
    rw [hp]
    refine ⟨rfl, ?_⟩
    intro p hp2
    dsimp only [Option.getD] at hp2
    exact ((mem_cleanupRecent _ now p).mp hp2).2
  · intro env rep now m
    have h := run_indep_of_failures_eq env { env with report := rep } now m rfl
    exact ⟨h.1, h.2.2⟩

/-- An environment with two reporters where one (reporter, instance) call
fails: `slack/team-a` errors while `slack/team-b` and `mail/inbox`
succeed. -/
def flakyEnv : Env :=
  { failures := Except.ok [{ ID := "y", Finished := 95000000000, Labels := [] }],
    logs := fun _ => Except.ok ("so", "se"),
    upload := fun _ a b => Except.ok (a, b),
    instances := fun _ _ n => if n = "slack" then ["team-a", "team-b"] else ["inbox"],
    reporters := ["slack", "mail"],
    report := fun n i _ _ _ =>
      if n = "slack" ∧ i = "team-a" then some "send failed" else none }

/-- Witness for C7: with one failing reporter call, dispatch still performs
all three (reporter, instance) calls and returns no error. -/
theorem spec_c7_witness :
    (processFailure flakyEnv "default"
        { ID := "y", Finished := 95000000000, Labels := [] }).err = none ∧
    (processFailure flakyEnv "default"
          { ID := "y", Finished := 95000000000, Labels := [] }).calls.map
        (fun cl => (cl.reporter, cl.inst)) =
      flakyEnv.reporters.flatMap (fun n =>
        (flakyEnv.instances "default" [] n).map (fun i => (n, i))) :=
  spec_c7_reporter_error_isolated.1 flakyEnv "default"
    { ID := "y", Finished := 95000000000, Labels := [] }
    "so" "se" "so" "se" rfl rfl

/-- Whether an `Except` value is an error. -/
def exceptIsError {α : Type} : Except String α → Bool
  | Except.error _ => true
  | Except.ok _ => false

/-- C8: dispatch of one failure returns an error exactly when log-URL
resolution or upload fails for it; in that case no `Report` call is made
for it; a run whose poll succeeded still returns no error; every dispatched
failure's ID is still present in the cache at the end of the run; and the
outcomes of log resolution and upload do not affect the monitor state or
which failures are dispatched. -/
theorem spec_c8_dispatch_error_contained :
    (∀ (env : Env) (name : String) (f : Failure),
        ((processFailure env name f).err.isSome = true ↔
          (exceptIsError (env.logs f) = true ∨
            ∃ so se, env.logs f = Except.ok (so, se) ∧
              exceptIsError (env.upload f so se) = true)) ∧
        ((processFailure env name f).err.isSome = true →
          (processFailure env name f).calls = [])) ∧
    (∀ (env : Env) (now : Int) (m : Monitor) (fs : List Failure),
        env.failures = Except.ok fs → (Run env now m).err = none) ∧
    (∀ (env : Env) (now : Int) (m : Monitor),
        timeout / 2 < now →
        ∀ d ∈ (Run env now m).dispatched,
          hasKey (((Run env now m).monitor.recent).getD []) d.failure.ID = true) ∧
    (∀ (env : Env) (lg : Failure → Except String (String × String))
        (up : Failure → String → String → Except String (String × String))
        (now : Int) (m : Monitor),
        (Run { env with logs := lg, upload := up } now m).monitor =
            (Run env now m).monitor ∧
          (Run { env with logs := lg, upload := up } now m).dispatched.map
              (fun d => d.failure) =
            (Run env now m).dispatched.map (fun d => d.failure)) := by
  refine ⟨?_, ?_, ?_, ?_⟩
  · intro env name f
    constructor
    · cases hl : env.logs f with
      | error e =>
        unfold processFailure
        rw [hl]
        dsimp only
        constructor
        · intro _
          exact Or.inl rfl
        · intro _
          rfl
      | ok pr =>
        obtain ⟨so, se⟩ := pr
        cases hu : env.upload f so se with
        | error e =>
          unfold processFailure
          rw [hl]
          dsimp only
          rw [hu]
          dsimp only
          constructor
          · intro _
            exact Or.inr ⟨so, se, rfl, by rw [hu]; rfl⟩
          · intro _
            rfl
        | ok pr2 =>
          obtain ⟨so2, se2⟩ := pr2
          unfold processFailure
          rw [hl]
          dsimp only
          rw [hu]
          dsimp only
          constructor
          · intro hfalse
            exact Bool.noConfusion hfalse
          · rintro (habs | ⟨so9, se9, heq, hbad⟩)
            · exact Bool.noConfusion habs
            · injection heq with h1
              injection h1 with h2 h3
              subst h2
              subst h3
              rw [hu] at hbad
              exact Bool.noConfusion hbad
    · intro hsome
      cases hl : env.logs f with
      | error e =>
        unfold processFailure
        rw [hl]
      | ok pr =>
        obtain ⟨so, se⟩ := pr
        cases hu : env.upload f so se with
        | error e =>
          unfold processFailure
          rw [hl]
          dsimp only
          rw [hu]
        | ok pr2 =>
          obtain ⟨so2, se2⟩ := pr2
          unfold processFailure at hsome
          rw [hl] at hsome
          dsimp only at hsome
          rw [hu] at hsome
          dsimp only at hsome
          exact absurd hsome (fun hh => Bool.noConfusion hh)
  · intro env now m fs hp
    unfold Run
    rw [hp]
  · intro env now m hnow d hd
    unfold Run at hd ⊢
    cases hp : env.failures with
    | error e =>
      rw [hp] at hd
      exact absurd hd (List.not_mem_nil d)
    | ok fs =>
      rw [hp] at hd
      dsimp only [runEval] at hd ⊢
      have hinv := foldl_dispatch_inv env now m.name m.recent.isNone hnow fs
        (m.recent.getD [], [])
        (fun d hd2 => absurd hd2 (List.not_mem_nil d)) d hd
      obtain ⟨hL, hS⟩ := hinv
      have ht : timeout = 60000000000 := rfl
      have h0 : d.failure.Finished ≠ 0 := by omega
      have hkeep := lookupTime_cleanupRecent_keep _ d.failure.ID now
        d.failure.Finished hL h0 (by omega)
      exact hasKey_of_lookupTime_ne _ _ (fun hzero => h0 (hkeep.symm.trans hzero))
  · intro env lg up now m
    have h := run_indep_of_failures_eq env { env with logs := lg, upload := up }
      now m rfl
    exact ⟨h.1, h.2.2⟩

/-- An environment whose log-URL resolution fails for every failure. -/
def brokenLogsEnv : Env :=
  { failures := Except.ok [{ ID := "y", Finished := 95000000000, Labels := [] }],
    logs := fun _ => Except.error "no such task",
    upload := fun _ a b => Except.ok (a, b),
    instances := fun _ _ _ => ["i"],
    reporters := ["rep"],
    report := fun _ _ _ _ _ => none }

/-- Witness for C8: when log resolution fails, dispatch errors and no
`Report` call is made. -/
theorem spec_c8_witness :
    (processFailure brokenLogsEnv "default"
        { ID := "y", Finished := 95000000000, Labels := [] }).calls = [] :=
  (spec_c8_dispatch_error_contained.1 brokenLogsEnv "default"
    { ID := "y", Finished := 95000000000, Labels := [] }).2 rfl

/- ### The half-window suppression property -/

/-- Along a trace of events, every evaluation of the given ID is stopped by
the cache-presence check (the first return point of `checkFailure`). -/
def allChecksCached (id : String) : Cache → List Event → Prop
  | _, [] => True
  | c, e :: es =>
      (∀ now f fi, e = Event.check now f fi → f.ID = id →
          (checkFailureO c now f fi).2 = Outcome.cachedReject) ∧
      allChecksCached id (stepCache c e) es

/-- While the cache maps `id` to a non-zero value `v` and every event is
recent enough that eviction keeps the entry, every evaluation of `id` is a
pure cache rejection and the entry survives the whole trace. -/
theorem allChecksCached_of_lookup (id : String) (v : Int) (h0 : v ≠ 0) :
    ∀ (es : List Event) (c : Cache),
      (∀ e ∈ es, Event.time e - v ≤ timeout) →
      lookupTime c id = v →
      allChecksCached id c es ∧ lookupTime (es.foldl stepCache c) id = v := by
  intro es
  induction es with
  | nil => intro c _ hL; exact ⟨trivial, hL⟩
  | cons e es ih =>
    intro c htimes hL
    have he : Event.time e - v ≤ timeout := htimes e (List.mem_cons_self e es)
    have htimes2 : ∀ x ∈ es, Event.time x - v ≤ timeout :=
      fun x hx => htimes x (List.mem_cons_of_mem e hx)
    have hstep : lookupTime (stepCache c e) id = v := by
      cases e with
      | check now f fi => exact lookupTime_checkFailureO_preserve c now f fi id v hL h0
      | purge now => exact lookupTime_cleanupRecent_keep c id now v hL h0 he
    have htail := ih (stepCache c e) htimes2 hstep
    refine ⟨⟨?_, htail.1⟩, by rw [List.foldl_cons]; exact htail.2⟩
    intro now f fi heq hid
    subst heq
    have hchk := checkFailureO_cached c now f fi (by rw [hid, hL]; exact h0)
    exact congrArg Prod.snd hchk

/-- C9: the staleness threshold is half the eviction window, so once a
failure is accepted its cache entry survives every eviction pass for at
least `timeout / 2` after the acceptance, and every duplicate poll of the
same ID within that interval is suppressed by the cache-presence check. -/
theorem spec_c9_accept_cached_half_window (c : Cache) (t0 : Int) (f : Failure)
    (fi : Bool) (es : List Event)
    (ht0 : timeout / 2 < t0)
    (hacc : (checkFailureO c t0 f fi).2 = Outcome.accept)
    (htimes : ∀ e ∈ es, t0 ≤ Event.time e ∧ Event.time e ≤ t0 + timeout / 2) :
    allChecksCached f.ID ((checkFailureO c t0 f fi).1) es ∧
    lookupTime (es.foldl stepCache ((checkFailureO c t0 f fi).1)) f.ID =
      f.Finished := by
  have ht : timeout = 60000000000 := rfl
  obtain ⟨hlk, hfresh, _⟩ := (checkFailureO_accept_iff c t0 f fi).mp hacc
  have h0 : f.Finished ≠ 0 := by omega
  have hL : lookupTime ((checkFailureO c t0 f fi).1) f.ID = f.Finished := by
    rw [checkFailureO_fst, if_neg (fun hne => hne hlk)]
    exact lookupTime_mapWrite_self c f.ID f.Finished
  exact allChecksCached_of_lookup f.ID f.Finished h0 es _
    (fun e he => by have h2 := htimes e he; omega) hL

/-- Witness for C9: a failure accepted at time 100s keeps its entry through
a duplicate check, an eviction pass and another duplicate check within the
following 30 seconds. -/
theorem spec_c9_witness :
    allChecksCached "a"
        ((checkFailureO [] 100000000000
          { ID := "a", Finished := 90000000000, Labels := [] } false).1)
        [Event.check 105000000000 { ID := "a", Finished := 90000000000, Labels := [] } false,
         Event.purge 120000000000,
         Event.check 130000000000 { ID := "a", Finished := 90000000000, Labels := [] } false] ∧
    lookupTime
        (List.foldl stepCache
          ((checkFailureO [] 100000000000
            { ID := "a", Finished := 90000000000, Labels := [] } false).1)
          [Event.check 105000000000 { ID := "a", Finished := 90000000000, Labels := [] } false,
           Event.purge 120000000000,
           Event.check 130000000000 { ID := "a", Finished := 90000000000, Labels := [] } false])
        "a" = 90000000000 :=
  spec_c9_accept_cached_half_window [] 100000000000
    { ID := "a", Finished := 90000000000, Labels := [] } false
    [Event.check 105000000000 { ID := "a", Finished := 90000000000, Labels := [] } false,
     Event.purge 120000000000,
     Event.check 130000000000 { ID := "a", Finished := 90000000000, Labels := [] } false]
    (by decide) (by decide) (by decide)

/-- C10: cache presence is decided by whether the stored time is the zero
value.  A failure with a non-zero `Finished` time whose entry is cached is
rejected without any cache change; a failure whose `Finished` equals the
zero time leaves an entry indistinguishable from absence, so it is
re-evaluated and re-recorded on every sighting, yet (at any realistic
current time) it is never accepted because the zero timestamp always
exceeds the staleness threshold. -/
theorem spec_c10_zero_time_cache :
    (∀ (c : Cache) (now : Int) (f : Failure) (first : Bool),
        f.Finished ≠ 0 → lookupTime c f.ID = f.Finished →
        checkFailureO c now f first = (c, Outcome.cachedReject)) ∧
    (∀ (c : Cache) (now : Int) (f : Failure) (first : Bool),
        f.Finished = 0 → lookupTime c f.ID = 0 →
        (checkFailureO c now f first).2 ≠ Outcome.cachedReject ∧
        lookupTime (checkFailureO c now f first).1 f.ID = 0 ∧
        hasKey (checkFailureO c now f first).1 f.ID = true) ∧
    (∀ (c : Cache) (now : Int) (f : Failure) (first : Bool),
        f.Finished = 0 → timeout / 2 < now →
        (checkFailureO c now f first).2 ≠ Outcome.accept) := by
  refine ⟨?_, ?_, ?_⟩
  · intro c now f first h0 hL
    exact checkFailureO_cached c now f first (by rw [hL]; exact h0)
  · intro c now f first h0 hL
    have hne : ¬lookupTime c f.ID ≠ 0 := fun hne => hne hL
    have hfst : (checkFailureO c now f first).1 = mapWrite c f.ID f.Finished := by
      rw [checkFailureO_fst, if_neg hne]
    refine ⟨?_, ?_, ?_⟩
    · unfold checkFailureO
      rw [if_neg hne]
      dsimp only
      split_ifs <;> simp
    · rw [hfst, lookupTime_mapWrite_self]
      exact h0
    · rw [hfst]
      exact hasKey_mapWrite_self c f.ID f.Finished
  · intro c now f first h0 hnow hacc
    obtain ⟨-, hfr, -⟩ := (checkFailureO_accept_iff c now f first).mp hacc
    have ht : timeout = 60000000000 := rfl
    omega

/-- Witness for C10: a zero-`Finished` failure is re-evaluated (not a cache
rejection), re-recorded with the zero value, and its key is present. -/
theorem spec_c10_witness :
    (checkFailureO [] 120000000000
        { ID := "z", Finished := 0, Labels := [] } false).2 ≠ Outcome.cachedReject ∧
    lookupTime (checkFailureO [] 120000000000
        { ID := "z", Finished := 0, Labels := [] } false).1 "z" = 0 ∧
    hasKey (checkFailureO [] 120000000000
        { ID := "z", Finished := 0, Labels := [] } false).1 "z" = true :=
  spec_c10_zero_time_cache.2.1 [] 120000000000
    { ID := "z", Finished := 0, Labels := [] } false rfl rfl

/-- Witness for C5: the boundary entry of the counterexample is
characterized exactly by the strict window. -/
theorem spec_c5_witness :
    (("a", (5 : Int)) ∈ cleanupRecent [("a", (5 : Int))] (5 + timeout) ↔
      ("a", (5 : Int)) ∈ [("a", (5 : Int))] ∧ 5 + timeout ≤ 5 + timeout) :=
  spec_c5_eviction_window [("a", (5 : Int))] (5 + timeout) ("a", (5 : Int))
